import Mathlib

/-!
Verification of the core retrieval engine of the obsidian-LLM-RAG-Chat
plugin: text chunking, the embedding cache, similarity search, the data
store, and the query orchestrator.  Each TypeScript function of the
source is embedded as an executable Lean definition; machine reals are
modelled as exact rationals (the one float subtlety that matters, the
NaN produced by a zero-magnitude cosine division, is modelled by
`Option`), the JavaScript number used as a window index is modelled as
`Int`, and the `while` loop of the chunker is modelled with explicit
fuel, `none` meaning the loop did not finish within the given fuel.
-/

/-- Character-list model of `String.prototype.slice(s, e)`: a negative
index counts from the end of the string, and both indices are clamped
to `[0, length]`. -/
def jsSliceIdx (n : Int) (len : Nat) : Nat :=
  if n < 0 then (max ((len : Int) + n) 0).toNat else min n.toNat len

def jsSlice (l : List Char) (s e : Int) : List Char :=
  (l.take (jsSliceIdx e l.length)).drop (jsSliceIdx s l.length)

/-- Model of `String.prototype.lastIndexOf(c)` for a single character:
the greatest index holding `c`, or `-1` when `c` does not occur. -/
def lastIndexOf (l : List Char) (c : Char) : Int :=
  l.enum.foldl (fun acc p => if p.2 = c then (p.1 : Int) else acc) (-1)

/-- Model of `String.prototype.trim()`: drop whitespace from both ends. -/
def jsTrimChars (l : List Char) : List Char :=
  ((l.dropWhile Char.isWhitespace).reverse.dropWhile Char.isWhitespace).reverse

/-- The window end `end = Math.min(start + chunkSize, text.length)` of
one iteration of the chunker loop. -/
def windowEnd (text : List Char) (cs start : Int) : Int :=
  min (start + cs) (text.length : Int)

/-- The value `breakPoint = Math.max(chunk.lastIndexOf('.'),
chunk.lastIndexOf('\\n'))` of one iteration, computed on the
*window-relative* string `chunk = text.slice(start, end)` exactly as in
the source. -/
def breakPointOf (text : List Char) (cs start : Int) : Int :=
  max (lastIndexOf (jsSlice text start (windowEnd text cs start)) '.')
    (lastIndexOf (jsSlice text start (windowEnd text cs start)) '\n')

/-- The `while (start < text.length)` loop of `chunkText`
(`EmbeddingUtils.chunkText`, and the identical `GeminiRAGPlugin.chunkText`),
embedded with explicit fuel.  Besides the accumulated chunks (`acc`,
matching the source's `chunks` array, trimmed as pushed) the loop also
accumulates as verification instrumentation the half-open index window
`(start, end')` each pushed chunk was sliced from (`accW`).  The float
comparison `breakPoint > start + chunkSize * 0.7` is modelled exactly
over the rationals and then cleared of its denominator:
`10 * breakPoint > 10 * start + 7 * cs`. -/
def chunkLoop (text : List Char) (cs ov : Int) :
    Nat → Int → List (List Char) → List (Int × Int) →
    Option (List (List Char) × List (Int × Int))
  | 0, _, _, _ => none
  | fuel+1, start, acc, accW =>
    if start < (text.length : Int) then
      if windowEnd text cs start < (text.length : Int) then
        if 10 * breakPointOf text cs start > 10 * start + 7 * cs then
          chunkLoop text cs ov fuel (breakPointOf text cs start + 1 - ov)
            (acc ++ [jsTrimChars (jsSlice text start (breakPointOf text cs start + 1))])
            (accW ++ [(start, breakPointOf text cs start + 1)])
        else
          chunkLoop text cs ov fuel (windowEnd text cs start - ov)
            (acc ++ [jsTrimChars (jsSlice text start (windowEnd text cs start))])
            (accW ++ [(start, windowEnd text cs start)])
      else
        chunkLoop text cs ov fuel (windowEnd text cs start)
          (acc ++ [jsTrimChars (jsSlice text start (windowEnd text cs start))])
          (accW ++ [(start, windowEnd text cs start)])
    else
      some (acc, accW)

/-- The chunker run from `start = 0` with a default fuel budget of
`length + 1`, which suffices for every execution whose window start
strictly advances each iteration. -/
def chunkTextCore (text : List Char) (cs ov : Int) :
    Option (List (List Char) × List (Int × Int)) :=
  chunkLoop text cs ov (text.length + 1) 0 [] []

/-- Model of `chunkText(text, chunkSize, overlap)`: run the loop, then
`chunks.filter(chunk => chunk.length > 0)`. -/
def chunkText (text : String) (cs ov : Int) : Option (List String) :=
  (chunkTextCore text.data cs ov).map
    (fun p => (p.1.filter (fun c => decide (0 < c.length))).map
      (fun l => String.mk l))

/-- The chunker's loop terminates from `start = 0` within some fuel. -/
def chunkTerminates (text : String) (cs ov : Int) : Prop :=
  ∃ fuel res, chunkLoop text.data cs ov fuel 0 [] [] = some res

/-- Coverage property of the chunker: some run of the loop finishes, and
every character index of the input lies inside at least one of the
windows the loop sliced a chunk from. -/
def chunkCovered (text : String) (cs ov : Int) : Prop :=
  ∃ fuel res, chunkLoop text.data cs ov fuel 0 [] [] = some res ∧
    ∀ p : Int, 0 ≤ p → p < (text.data.length : Int) →
      ∃ w ∈ res.2, w.1 ≤ p ∧ p < w.2

/-- Modelled from the spec's words (§4.1), for comparison with the
source: identical walk, but `breakPoint` is the *absolute* position in
the text of the last period or newline inside the window, the truncated
chunk is `text[windowStart .. breakPoint]` inclusive, and the next
window starts at `breakPoint + 1 - overlap`. -/
def chunkSpecLoop (text : List Char) (cs ov : Int) :
    Nat → Int → List (List Char) → Option (List (List Char))
  | 0, _, _ => none
  | fuel+1, start, acc =>
    if start < (text.length : Int) then
      if windowEnd text cs start < (text.length : Int) then
        if 10 * (start + breakPointOf text cs start) > 10 * start + 7 * cs then
          chunkSpecLoop text cs ov fuel (start + breakPointOf text cs start + 1 - ov)
            (acc ++ [jsTrimChars (jsSlice text start (start + breakPointOf text cs start + 1))])
        else
          chunkSpecLoop text cs ov fuel (windowEnd text cs start - ov)
            (acc ++ [jsTrimChars (jsSlice text start (windowEnd text cs start))])
      else
        chunkSpecLoop text cs ov fuel (windowEnd text cs start)
          (acc ++ [jsTrimChars (jsSlice text start (windowEnd text cs start))])
    else
      some acc

/-- Top level of the spec-side chunker. -/
def chunkTextSpec (text : String) (cs ov : Int) : Option (List String) :=
  (chunkSpecLoop text.data cs ov (text.data.length + 1) 0 []).map
    (fun p => (p.filter (fun c => decide (0 < c.length))).map
      (fun l => String.mk l))

/-!
Exact-rational model of float arithmetic.  The core `Rat` operations are
kernel-irreducible, so the embedding computes with `mkRat`-based
equivalents; `qAdd_eq`, `qMul_eq`, `qDiv_eq` and `qAbs_eq` prove they
are exactly rational addition, multiplication, division and absolute
value.
-/

def qAdd (x y : ℚ) : ℚ :=
  mkRat (x.num * (y.den : Int) + y.num * (x.den : Int)) (x.den * y.den)

def qMul (x y : ℚ) : ℚ := mkRat (x.num * y.num) (x.den * y.den)

def qDiv (x y : ℚ) : ℚ :=
  if y.num < 0 then mkRat (-(x.num * (y.den : Int))) (x.den * y.num.natAbs)
  else mkRat (x.num * (y.den : Int)) (x.den * y.num.natAbs)

def qAbs (x : ℚ) : ℚ := if x.num < 0 then mkRat (-x.num) x.den else x

/-!
Data model, mirroring the interfaces of `main.ts` / `types`.
-/

/-- Mirror of the `DocumentChunk` interface.  An actual float
`similarity` value `v` is stored in its order-faithful signed-square
encoding `v * |v|` (see `cosineSimilarity`). -/
structure Chunk where
  content : String
  filePath : String
  fileName : String
  embedding : Option (List ℚ) := none
  similarity : Option ℚ := none
deriving DecidableEq, Repr

/-- Mirror of the `EmbeddingData` interface. -/
structure EmbeddingData where
  chunks : List Chunk
  lastUpdated : Int
deriving DecidableEq, Repr

/-- The in-memory `embeddingCache : Map<string, EmbeddingData>`,
modelled as an association list in insertion order (a JavaScript `Map`
iterates in insertion order, which the search's "original iteration
order" depends on). -/
abbrev CacheMap := List (String × EmbeddingData)

/-- Mirror of the `ChatMessage` interface (sources omitted: they do not
participate in any claim). -/
structure ChatMessage where
  role : String
  content : String
  timestamp : Int
deriving DecidableEq, Repr

/-- Mirror of the `GeminiRAGSettings` interface. -/
structure Settings where
  apiKey : String
  embeddingModel : String
  generativeModel : String
  maxResults : Nat
  similarityThreshold : ℚ
  chunkSize : Int
  chunkOverlap : Int
deriving DecidableEq, Repr

/-- Mirror of `DEFAULT_SETTINGS`; the float default `0.7` is the exact
rational `7/10`. -/
def defaultSettings : Settings :=
  { apiKey := ""
    embeddingModel := "text-embedding-004"
    generativeModel := "gemini-1.5-flash"
    maxResults := 5
    similarityThreshold := mkRat 7 10
    chunkSize := 1000
    chunkOverlap := 200 }

/-- Model of `Map.prototype.get`. -/
def mapGet (m : CacheMap) (k : String) : Option EmbeddingData :=
  (m.find? (fun kv => kv.1 == k)).map (fun kv => kv.2)

/-- Model of `Map.prototype.set`: replace in place when the key exists
(keeping its insertion position), append otherwise. -/
def mapSet (m : CacheMap) (k : String) (v : EmbeddingData) : CacheMap :=
  match m with
  | [] => [(k, v)]
  | kv :: rest => if kv.1 == k then (k, v) :: rest else kv :: mapSet rest k v

/-!
Similarity computation (`EmbeddingUtils.cosineSimilarity`) and search
(`EmbeddingUtils.searchSimilarChunks`).
-/

/-- The reduction `a.reduce((sum, val) => sum + val * val, 0)` inside the
magnitude computations. -/
def sumSq (v : List ℚ) : ℚ := v.foldl (fun s x => qAdd s (qMul x x)) 0

/-- Model of `a.reduce((sum, val, i) => sum + val * b[i], 0)`:
when `b` is shorter than `a`, some `b[i]` is `undefined` and the float
sum is NaN, modelled as `none`. -/
def dotProduct (a b : List ℚ) : Option ℚ :=
  if b.length < a.length then none
  else some ((a.zip b).foldl (fun s p => qAdd s (qMul p.1 p.2)) 0)

/-- Model of `cosineSimilarity(a, b) = dot / (|a| * |b|)`.  The float
value `v = d / sqrt(sumSq a * sumSq b)` is represented by its
signed square `v * |v| = d * |d| / (sumSq a * sumSq b)`, an encoding
that is exactly order-preserving (`x ↦ x * |x|` is a strictly monotone
bijection of the reals), keeps every quantity rational, and sends `0`
to `0`.  When either magnitude is zero the division is `0 / 0 = NaN`,
modelled as `none`; a NaN dot product also propagates. -/
def cosineSimilarity (a b : List ℚ) : Option ℚ :=
  match dotProduct a b with
  | none => none
  | some d =>
    if sumSq a = 0 ∨ sumSq b = 0 then none
    else some (qDiv (qMul d (qAbs d)) (qMul (sumSq a) (sumSq b)))

/-- The comparison `similarity >= settings.similarityThreshold` on the
encoded similarity: a raw float comparison `v >= t` is equivalent to
`v * |v| >= t * |t|`, and a NaN similarity compares false. -/
def simGe (s : Option ℚ) (t : ℚ) : Bool :=
  match s with
  | none => false
  | some q => decide (qMul t (qAbs t) ≤ q)

/-- The value `x.similarity || 0` used by the sort comparator (all
sorted chunks have their similarity set, so this is just the encoded
similarity). -/
def simVal (c : Chunk) : ℚ := c.similarity.getD 0

/-- The comparator `(b.similarity || 0) - (a.similarity || 0)` orders by
similarity descending; `chunkGeB a b` holds when `a` need not come
after `b`. -/
def chunkGeB (a b : Chunk) : Bool := decide (simVal b ≤ simVal a)

/-- Insertion of one element into a sorted list: `x` is placed before
the first element `y` with `le x y`.  Folding it from the right is the
unique stable sort determined by the total preorder `le`, which is what
`Array.prototype.sort` (stable per the ECMAScript spec) produces. -/
def insertD {α : Type} (le : α → α → Bool) (x : α) : List α → List α
  | [] => [x]
  | y :: ys => if le x y then x :: y :: ys else y :: insertD le x ys

def isortD {α : Type} (le : α → α → Bool) (l : List α) : List α :=
  l.foldr (insertD le) []

/-- The body of the chunk loop of `searchSimilarChunks`: a chunk with an
embedding whose similarity clears the threshold contributes
`{ ...chunk, similarity }`. -/
def candidateOf (qe : List ℚ) (t : ℚ) (c : Chunk) : Option Chunk :=
  match c.embedding with
  | none => none
  | some emb =>
    if simGe (cosineSimilarity qe emb) t then
      some { c with similarity := cosineSimilarity qe emb }
    else none

/-- The `allChunks` array of `searchSimilarChunks`, in cache iteration
order. -/
def candidates (qe : List ℚ) (cache : CacheMap) (st : Settings) : List Chunk :=
  ((cache.map (fun kv => kv.2.chunks)).flatten).filterMap
    (candidateOf qe st.similarityThreshold)

/-- Model of `searchSimilarChunks`: embed failure (`!queryEmbedding`)
yields `[]`; otherwise filter by threshold, stable-sort by similarity
descending, and `slice(0, maxResults)`. -/
def searchSimilarChunks (queryEmbedding : Option (List ℚ)) (cache : CacheMap)
    (st : Settings) : List Chunk :=
  match queryEmbedding with
  | none => []
  | some qe => (isortD chunkGeB (candidates qe cache st)).take st.maxResults

/-- The spec's ordering (§4.3): similarity descending, ties broken by
original iteration order, on position-tagged chunks. -/
def lexLeB (a b : Nat × Chunk) : Bool :=
  decide (simVal b.2 < simVal a.2 ∨ (simVal a.2 = simVal b.2 ∧ a.1 ≤ b.1))

/-- Modelled from the spec's words (§4.3), for comparison with the
source: tag each surviving chunk with its original iteration position,
sort by (similarity descending, position ascending), drop the tags,
truncate to `maxResults`. -/
def searchSpecStable (qe : List ℚ) (cache : CacheMap) (st : Settings) :
    List Chunk :=
  ((isortD lexLeB (candidates qe cache st).enum).map Prod.snd).take st.maxResults

/-!
Query orchestrator (`GeminiRAGPlugin.queryWithRAG`), the plugin data
store (`loadData` / `saveData`), and the ingestion pipeline
(`EmbeddingUtils.processFileForEmbeddings`,
`GeminiRAGPlugin.processFileForEmbeddings`).
-/

/-- Failure kinds of the generation capability.  `notReady` models the
`'Gemini not initialized'` throw; the others are the provider failure
tags named by the spec (§6). -/
inductive GenError where
  | notReady
  | unavailable
  | auth
  | rateLimited
  | serviceUnavailable
  | otherError
deriving DecidableEq, Repr

/-- The context string: ranked chunks rendered as
`From "fileName":\ncontent` joined by `\n\n---\n\n`. -/
def buildContext (chunks : List Chunk) : String :=
  String.intercalate "\n\n---\n\n"
    (chunks.map (fun c => "From \"" ++ c.fileName ++ "\":\n" ++ c.content))

/-- The prompt template of `queryWithRAG`. -/
def buildPrompt (query : String) (chunks : List Chunk) : String :=
  "Based on the following content from the user's Obsidian vault, please answer their question:\n\nContext:\n"
    ++ buildContext chunks
    ++ "\n\nQuestion: " ++ query
    ++ "\n\nPlease provide a comprehensive answer based on the provided context. If the context doesn't contain enough information to fully answer the question, mention that and provide what information is available."

/-- Model of `queryWithRAG(query)`.  `ready` is `genAI !== null`;
`queryEmbedding` is the result the embedding capability returned for
the query (`none` = the embed call failed, making the search return
`[]`).  The generation capability `gen` takes the model identifier, the
zero-based index of the call made to it during this query, and the
prompt; the second component of the result counts how many times the
generation capability was invoked.  The source awaits
`generateContent` exactly once, returns `response.text()` on success
and rethrows the error otherwise. -/
def queryWithRAG (ready : Bool) (query : String)
    (queryEmbedding : Option (List ℚ)) (cache : CacheMap) (st : Settings)
    (gen : String → Nat → String → Except GenError String) :
    Except GenError String × Nat :=
  if !ready then (.error .notReady, 0)
  else
    let relevantChunks := searchSimilarChunks queryEmbedding cache st
    if relevantChunks.isEmpty then
      (.ok "No relevant content found in your vault for this query.", 0)
    else
      (gen st.generativeModel 0 (buildPrompt query relevantChunks), 1)

/-- Modelled from the spec's words (§4.5, retry/fallback policy), for
comparison with the source: up to 3 attempts; a transient-unavailable
failure backs off and retries, switching the generation model to the
first entry of the fallback list exactly once, before attempt index 1;
auth and rate-limit failures fail fast; exhausting the attempts yields
`serviceUnavailable`.  The result records the attempts consumed and the
number of model switches performed.  (The backoff sleep
`2^attempt * 2000ms` has no observable value here and is not
modelled.) -/
def retryGo (gen : String → Nat → String → Except GenError String)
    (prompt : String) (fallback : List String) :
    Nat → Nat → String → Nat → Except GenError String × Nat × Nat
  | 0, attempt, _, switches => (.error .serviceUnavailable, attempt, switches)
  | remaining+1, attempt, model, switches =>
    match gen model attempt prompt with
    | .ok t => (.ok t, attempt + 1, switches)
    | .error .unavailable =>
      if remaining = 0 then (.error .serviceUnavailable, attempt + 1, switches)
      else if attempt = 0 then
        retryGo gen prompt fallback remaining 1 (fallback.headD model) (switches + 1)
      else
        retryGo gen prompt fallback remaining (attempt + 1) model switches
    | .error e => (.error e, attempt + 1, switches)

/-- Entry point of the spec-side retry policy: 3 attempts, starting at
attempt index 0 with the configured model and no switches yet. -/
def retryGenerate (gen : String → Nat → String → Except GenError String)
    (model : String) (fallback : List String) (prompt : String) :
    Except GenError String × Nat × Nat :=
  retryGo gen prompt fallback 3 0 model 0

/-- The single plugin data store behind `loadData` / `saveData`: one
JSON object that may carry the settings fields, an `embeddingCache`
field, and a `chatHistory` field.  `saveData(x)` replaces the whole
object with `x`. -/
structure StoreData where
  settingsData : Option Settings
  embeddingCacheData : Option CacheMap
  chatHistoryData : Option (List ChatMessage)
deriving DecidableEq, Repr

/-- Model of `saveSettings`: `saveData(this.settings)` writes an object
holding only the settings fields, whatever the store held before. -/
def saveSettingsStore (s : Settings) (_prev : StoreData) : StoreData :=
  { settingsData := some s, embeddingCacheData := none, chatHistoryData := none }

/-- Model of `saveEmbeddingsToCache`:
`saveData({ embeddingCache: ... })` writes an object holding only the
`embeddingCache` field. -/
def saveEmbeddingsToCacheStore (m : CacheMap) (_prev : StoreData) : StoreData :=
  { settingsData := none, embeddingCacheData := some m, chatHistoryData := none }

/-- Model of `ChatView.saveChatHistory`: load-modify-save, so the other
fields of the store survive. -/
def saveChatHistoryStore (h : List ChatMessage) (prev : StoreData) : StoreData :=
  { prev with chatHistoryData := some h }

/-- Model of `loadEmbeddingsFromCache`: replace the in-memory cache by
the store's `embeddingCache` field when it is present, otherwise leave
the in-memory cache as it is. -/
def loadEmbeddingsFromCache (d : StoreData) (current : CacheMap) : CacheMap :=
  match d.embeddingCacheData with
  | some m => m
  | none => current

/-- The `onChange` handler of the Chunk Overlap slider
(`GeminiRAGSettingTab.display`): store the value, then `saveSettings`.
No validation of any kind is performed. -/
def chunkOverlapOnChange (s : Settings) (d : StoreData) (v : Int) :
    Settings × StoreData :=
  let s2 := { s with chunkOverlap := v }
  (s2, saveSettingsStore s2 d)

/-- The `onChange` handler of the Chunk Size slider. -/
def chunkSizeOnChange (s : Settings) (d : StoreData) (v : Int) :
    Settings × StoreData :=
  let s2 := { s with chunkSize := v }
  (s2, saveSettingsStore s2 d)

/-- Model of `EmbeddingUtils.processFileForEmbeddings` for an already
read file: chunk the content with the settings' chunk size and overlap,
drop chunks shorter than 50 characters after trimming, embed the rest
(an embed failure drops just that chunk), and produce an
`EmbeddingData` stamped `now`.  The second component records, as
verification instrumentation, the `(chunkSize, overlap)` argument pair
of each `chunkText` invocation made.  A `none` first component means
the call produced no record (here: the chunker loop did not finish). -/
def processFileForEmbeddings (path fname : String) (content : String)
    (st : Settings) (embed : String → Option (List ℚ)) (now : Int) :
    Option EmbeddingData × List (Int × Int) :=
  match chunkText content st.chunkSize st.chunkOverlap with
  | none => (none, [(st.chunkSize, st.chunkOverlap)])
  | some chunks =>
    (some
      { chunks := chunks.filterMap (fun c =>
          if (jsTrimChars c.data).length < 50 then none
          else (embed c).map (fun e =>
            { content := c, filePath := path, fileName := fname
              embedding := some e, similarity := none }))
        lastUpdated := now },
      [(st.chunkSize, st.chunkOverlap)])

/-- Model of `GeminiRAGPlugin.processFileForEmbeddings`' cache update:
`if (embeddingData) this.embeddingCache.set(file.path, embeddingData)`. -/
def pluginProcessFile (cache : CacheMap) (path : String)
    (result : Option EmbeddingData) : CacheMap :=
  match result with
  | some d => mapSet cache path d
  | none => cache

/-- A text on which the chunker loops forever with `chunkSize = 10`,
`overlap = 9`: the period at index 8 makes `breakPoint = 8 > 0 + 7`, so
the next start is `8 + 1 - 9 = 0` again. -/
def bad3 : String := "aaaaaaaa.aaaaaa"

/-- A second text with the same non-terminating shape, for the coverage
counterexample. -/
def bad8 : String := "bbbbbbbb.bbbbbb"

/-- Settings with the similarity threshold set to `0`, for the C7
counterexample. -/
def zeroThresholdSettings : Settings :=
  { defaultSettings with similarityThreshold := 0 }

/-- The one-chunk cache used by the C7 counterexample. -/
def cacheC7 : CacheMap :=
  [("note.md",
    { chunks := [{ content := "some cached content", filePath := "note.md",
                   fileName := "note.md", embedding := some [1],
                   similarity := none }]
      lastUpdated := 0 })]

/-- The old ten-chunk record for the C9 witness. -/
def dataTen : EmbeddingData :=
  { chunks := List.replicate 10
      { content := "old chunk text", filePath := "a.md", fileName := "a.md"
        embedding := some [1], similarity := none }
    lastUpdated := 1 }

/-- The new three-chunk record for the C9 witness. -/
def dataThree : EmbeddingData :=
  { chunks := List.replicate 3
      { content := "new chunk text", filePath := "a.md", fileName := "a.md"
        embedding := some [2], similarity := none }
    lastUpdated := 2 }

/-- The bystander record for the C9 witness. -/
def dataOther : EmbeddingData :=
  { chunks := [{ content := "other note", filePath := "b.md", fileName := "b.md"
                 embedding := some [3], similarity := none }]
    lastUpdated := 1 }

/-- The two-source cache the C9 witness re-ingests into. -/
def cacheC9 : CacheMap := [("a.md", dataTen), ("b.md", dataOther)]

/-- The empty store the C4 counterexample starts from. -/
def emptyStore : StoreData :=
  { settingsData := none, embeddingCacheData := none, chatHistoryData := none }

/-- The settings produced by moving the Chunk Size slider to 200 and
then the Chunk Overlap slider to 500 — both values the settings UI
offers — so that `chunkOverlap = 500 ≥ 200 = chunkSize`. -/
def c4Settings : Settings :=
  (chunkOverlapOnChange (chunkSizeOnChange defaultSettings emptyStore 200).1
    (chunkSizeOnChange defaultSettings emptyStore 200).2 500).1

/-- A 60-character document for the C4 counterexample. -/
def c4Content : String :=
  "aaaaaaaaaaaaaaaaaaaaaaaaaaaaaaaaaaaaaaaaaaaaaaaaaaaaaaaaaaaa"

/-- The one-chunk cache used by the C1 theorems: its chunk's embedding
`[1]` has similarity 1 against the query embedding `[1]`, clearing the
default threshold, so the search result is non-empty. -/
def cacheC1 : CacheMap :=
  [("vault-note.md",
    { chunks := [{ content := "relevant cached content", filePath := "vault-note.md",
                   fileName := "vault-note.md", embedding := some [1],
                   similarity := none }]
      lastUpdated := 0 })]

/-- A generation capability that reports transient unavailability on
attempt indices 0 and 1 and succeeds on attempt index 2. -/
def genFlaky : String → Nat → String → Except GenError String :=
  fun _ attempt _ =>
    if attempt < 2 then .error .unavailable else .ok "answer from attempt 3"

/-!
Theorems: bridge facts for the rational layer, lemmas about the
chunker loop, the stable sort and the search, and the claim theorems.
-/

theorem qAdd_eq (x y : ℚ) : qAdd x y = x + y := by
  rw [qAdd, Rat.mkRat_eq_div]
  push_cast
  conv_rhs => rw [← Rat.num_div_den x, ← Rat.num_div_den y]
  have hx : ((x.den : ℚ)) ≠ 0 := by exact_mod_cast x.den_pos.ne'
  have hy : ((y.den : ℚ)) ≠ 0 := by exact_mod_cast y.den_pos.ne'
  field_simp
  try ring

theorem qMul_eq (x y : ℚ) : qMul x y = x * y := by
  rw [qMul, Rat.mkRat_eq_div]
  push_cast
  conv_rhs => rw [← Rat.num_div_den x, ← Rat.num_div_den y]
  have hx : ((x.den : ℚ)) ≠ 0 := by exact_mod_cast x.den_pos.ne'
  have hy : ((y.den : ℚ)) ≠ 0 := by exact_mod_cast y.den_pos.ne'
  field_simp
  try ring

theorem qDiv_eq (x y : ℚ) : qDiv x y = x / y := by
  have hx : ((x.den : ℚ)) ≠ 0 := by exact_mod_cast x.den_pos.ne'
  have hy : ((y.den : ℚ)) ≠ 0 := by exact_mod_cast y.den_pos.ne'
  rw [qDiv]
  rcases lt_trichotomy y.num 0 with h | h | h
  · have hyq : ((y.num : ℚ)) ≠ 0 := by exact_mod_cast h.ne
    rw [if_pos h, Rat.mkRat_eq_div]
    push_cast [Int.cast_natAbs]
    rw [abs_of_neg (show ((y.num : ℚ)) < 0 by exact_mod_cast h)]
    conv_rhs => rw [← Rat.num_div_den x, ← Rat.num_div_den y]
    field_simp
    try ring
  · have hy0 : y = 0 := by rwa [← Rat.num_eq_zero]
    rw [if_neg (by omega), h, hy0]
    simp [Rat.mkRat_eq_div]
  · have hyq : ((y.num : ℚ)) ≠ 0 := by exact_mod_cast h.ne'
    rw [if_neg (by omega), Rat.mkRat_eq_div]
    push_cast [Int.cast_natAbs]
    rw [abs_of_pos (show (0:ℚ) < (y.num : ℚ) by exact_mod_cast h)]
    conv_rhs => rw [← Rat.num_div_den x, ← Rat.num_div_den y]
    field_simp

theorem qAbs_eq (x : ℚ) : qAbs x = |x| := by
  rw [qAbs]
  rcases lt_trichotomy x.num 0 with h | h | h
  · have hx : x < 0 := by
      by_contra hc
      push_neg at hc
      rw [← Rat.num_nonneg] at hc
      omega
    rw [if_pos h, Rat.mkRat_eq_div, abs_of_neg hx]
    push_cast
    rw [neg_div, Rat.num_div_den]
  · have hx : x = 0 := by rwa [← Rat.num_eq_zero]
    rw [if_neg (by omega), hx]
    simp
  · have hx : 0 < x := by rwa [← Rat.num_pos]
    rw [if_neg (by omega), abs_of_pos hx]

/-!
Lemmas about the chunker loop.
-/

/-- The signed-square map `x ↦ x * |x|` used to encode float
similarities is strictly order-preserving, so every comparison the
search performs on encoded values agrees with the comparison on the raw
values (the identical argument applies over the reals). -/
theorem mul_abs_self_le_iff (x y : ℚ) : x * |x| ≤ y * |y| ↔ x ≤ y := by
  rcases le_or_lt 0 x with hx | hx
  · rcases le_or_lt 0 y with hy | hy
    · rw [abs_of_nonneg hx, abs_of_nonneg hy]
      constructor
      · intro h
        nlinarith
      · intro h
        nlinarith
    · rw [abs_of_nonneg hx, abs_of_neg hy]
      constructor
      · intro h
        nlinarith
      · intro h
        nlinarith
  · rcases le_or_lt 0 y with hy | hy
    · rw [abs_of_neg hx, abs_of_nonneg hy]
      constructor
      · intro h
        nlinarith
      · intro h
        nlinarith
    · rw [abs_of_neg hx, abs_of_neg hy]
      constructor
      · intro h
        nlinarith
      · intro h
        nlinarith

theorem chunkLoop_accW_sub (text : List Char) (cs ov : Int) :
    ∀ (fuel : Nat) (start : Int) acc accW res,
      chunkLoop text cs ov fuel start acc accW = some res →
      ∀ w ∈ accW, w ∈ res.2 := by
  intro fuel
  induction fuel with
  | zero =>
    intro start acc accW res h
    simp [chunkLoop] at h
  | succ f ih =>
    intro start acc accW res h w hw
    rw [chunkLoop] at h
    split at h
    · split at h
      · split at h
        · exact ih _ _ _ _ h w (List.mem_append_left _ hw)
        · exact ih _ _ _ _ h w (List.mem_append_left _ hw)
      · exact ih _ _ _ _ h w (List.mem_append_left _ hw)
    · cases h
      exact hw

theorem chunkLoop_total (text : List Char) (cs ov : Int) (hcs : 0 < cs)
    (hov : 0 ≤ ov) (h7 : 10 * ov ≤ 7 * cs) :
    ∀ (fuel : Nat) (start : Int) acc accW, 0 ≤ start →
      (text.length : Int) < start + fuel → 0 < fuel →
      ∃ res, chunkLoop text cs ov fuel start acc accW = some res := by
  intro fuel
  induction fuel with
  | zero =>
    intro start acc accW _ _ hf
    omega
  | succ f ih =>
    intro start acc accW hs hlen _
    rw [chunkLoop]
    by_cases h1 : start < (text.length : Int)
    · rw [if_pos h1]
      have hf : 0 < f := by omega
      by_cases h2 : windowEnd text cs start < (text.length : Int)
      · rw [if_pos h2]
        have he : windowEnd text cs start = start + cs := by
          unfold windowEnd at h2 ⊢
          omega
        by_cases h3 : 10 * breakPointOf text cs start > 10 * start + 7 * cs
        · rw [if_pos h3]
          exact ih _ _ _ (by omega) (by omega) hf
        · rw [if_neg h3]
          exact ih _ _ _ (by omega) (by omega) hf
      · rw [if_neg h2]
        have he : windowEnd text cs start = (text.length : Int) := by
          unfold windowEnd at h2 ⊢
          omega
        exact ih _ _ _ (by omega) (by omega) hf
    · rw [if_neg h1]
      exact ⟨_, rfl⟩

theorem chunkLoop_covers (text : List Char) (cs ov : Int) (hov : 0 ≤ ov) :
    ∀ (fuel : Nat) (start : Int) acc accW res,
      chunkLoop text cs ov fuel start acc accW = some res →
      ∀ p : Int, start ≤ p → p < (text.length : Int) →
        ∃ w ∈ res.2, w.1 ≤ p ∧ p < w.2 := by
  intro fuel
  induction fuel with
  | zero =>
    intro start acc accW res h
    simp [chunkLoop] at h
  | succ f ih =>
    intro start acc accW res h p hsp hplen
    rw [chunkLoop] at h
    split at h
    case isTrue h1 =>
      split at h
      case isTrue h2 =>
        split at h
        case isTrue h3 =>
          by_cases hp : p < breakPointOf text cs start + 1
          · refine ⟨(start, breakPointOf text cs start + 1), ?_, hsp, hp⟩
            exact chunkLoop_accW_sub text cs ov f _ _ _ _ h _
              (List.mem_append_right _ (List.mem_singleton.mpr rfl))
          · exact ih _ _ _ _ h p (by omega) hplen
        case isFalse h3 =>
          by_cases hp : p < windowEnd text cs start
          · refine ⟨(start, windowEnd text cs start), ?_, hsp, hp⟩
            exact chunkLoop_accW_sub text cs ov f _ _ _ _ h _
              (List.mem_append_right _ (List.mem_singleton.mpr rfl))
          · exact ih _ _ _ _ h p (by omega) hplen
      case isFalse h2 =>
        have he : windowEnd text cs start = (text.length : Int) := by
          unfold windowEnd at h2 ⊢
          omega
        refine ⟨(start, windowEnd text cs start), ?_, hsp, by omega⟩
        exact chunkLoop_accW_sub text cs ov f _ _ _ _ h _
          (List.mem_append_right _ (List.mem_singleton.mpr rfl))
    case isFalse h1 =>
      omega

theorem bad3_step (acc : List (List Char)) (accW : List (Int × Int)) (fuel : Nat) :
    chunkLoop bad3.data 10 9 (fuel+1) 0 acc accW =
      chunkLoop bad3.data 10 9 fuel 0
        (acc ++ [jsTrimChars (jsSlice bad3.data 0 9)]) (accW ++ [(0, 9)]) := rfl

theorem bad3_stuck :
    ∀ (fuel : Nat) acc accW, chunkLoop bad3.data 10 9 fuel 0 acc accW = none := by
  intro fuel
  induction fuel with
  | zero => intro acc accW; rfl
  | succ f ih =>
    intro acc accW
    rw [bad3_step]
    exact ih _ _

theorem bad8_step (acc : List (List Char)) (accW : List (Int × Int)) (fuel : Nat) :
    chunkLoop bad8.data 10 9 (fuel+1) 0 acc accW =
      chunkLoop bad8.data 10 9 fuel 0
        (acc ++ [jsTrimChars (jsSlice bad8.data 0 9)]) (accW ++ [(0, 9)]) := rfl

theorem bad8_stuck :
    ∀ (fuel : Nat) acc accW, chunkLoop bad8.data 10 9 fuel 0 acc accW = none := by
  intro fuel
  induction fuel with
  | zero => intro acc accW; rfl
  | succ f ih =>
    intro acc accW
    rw [bad8_step]
    exact ih _ _

/-- Claim C2 (code_bug): on the 22-character text
`"abcdefghijklmnopqr.stu"` with `chunkSize = 10`, `overlap = 0`, the
second window is `[10, 20)` and its last period sits at absolute
position 18, past 70% of the window (`18 > 10 + 7`), so the claimed
algorithm truncates the second chunk to `"klmnopqr."` and starts the
next window at 19, producing `["abcdefghij", "klmnopqr.", "stu"]`
(`chunkTextSpec`); the code instead compares the *window-relative*
index 8 against `17`, fails the test, and emits the full windows
`["abcdefghij", "klmnopqr.s", "tu"]` (`chunkText`). -/
theorem c2_chunker_relative_index_bug :
    chunkText "abcdefghijklmnopqr.stu" 10 0 =
        some ["abcdefghij", "klmnopqr.s", "tu"] ∧
      chunkTextSpec "abcdefghijklmnopqr.stu" 10 0 =
        some ["abcdefghij", "klmnopqr.", "stu"] :=
  ⟨rfl, rfl⟩

/-- Claim C3, counterexample: `chunkSize = 10 > 0` and
`0 ≤ overlap = 9 < 10`, yet on `bad3` the chunker never terminates —
no amount of fuel makes the loop finish, because the window start is
`0` at every iteration. -/
theorem c3_counterexample :
    (0:Int) < 10 ∧ (0:Int) ≤ 9 ∧ (9:Int) < 10 ∧ ¬ chunkTerminates bad3 10 9 := by
  refine ⟨by norm_num, by norm_num, by norm_num, ?_⟩
  rintro ⟨fuel, res, h⟩
  rw [bad3_stuck] at h
  exact Option.noConfusion h

/-- Claim C3, amended: the chunker terminates whenever
`overlap ≤ 0.7 * chunkSize` (denominator cleared:
`10 * overlap ≤ 7 * chunkSize`), the region where the window start
strictly advances on every iteration; `overlap < chunkSize` alone does
not suffice. -/
theorem c3_amended_terminates (text : String) (cs ov : Int) (hcs : 0 < cs)
    (hov : 0 ≤ ov) (h7 : 10 * ov ≤ 7 * cs) : chunkTerminates text cs ov := by
  obtain ⟨res, h⟩ := chunkLoop_total text.data cs ov hcs hov h7
    (text.data.length + 1) 0 [] [] le_rfl (by push_cast; omega) (by omega)
  exact ⟨_, res, h⟩

theorem c3_amended_terminates_witness :
    (0:Int) < 5 ∧ (0:Int) ≤ 3 ∧ 10 * (3:Int) ≤ 7 * 5 ∧
      chunkTerminates "Hello world" 5 3 :=
  ⟨by norm_num, by norm_num, by norm_num,
    c3_amended_terminates "Hello world" 5 3 (by norm_num) (by norm_num) (by norm_num)⟩

/-- Claim C8, counterexample: `chunkSize = 10 > 0`,
`0 ≤ overlap = 9 < 10` is a valid configuration in the claim's sense,
yet on `bad8` the chunker emits nothing at all (the loop never
finishes), so no character of the input is covered by any emitted
chunk's source window. -/
theorem c8_counterexample :
    (0:Int) < 10 ∧ (0:Int) ≤ 9 ∧ (9:Int) < 10 ∧ ¬ chunkCovered bad8 10 9 := by
  refine ⟨by norm_num, by norm_num, by norm_num, ?_⟩
  rintro ⟨fuel, res, h, _⟩
  rw [bad8_stuck] at h
  exact Option.noConfusion h

/-- Claim C8, amended: whenever `overlap ≤ 0.7 * chunkSize`
(denominator cleared: `10 * overlap ≤ 7 * chunkSize`) the chunker
terminates and every character of the input lies in at least one walked
window — consecutive windows overlap or abut, so no gap arises.  (The
emitted chunk of a window is the window's text trimmed, and windows
whose content trims to nothing are dropped by the final filter.) -/
theorem c8_amended_coverage (text : String) (cs ov : Int) (hcs : 0 < cs)
    (hov : 0 ≤ ov) (h7 : 10 * ov ≤ 7 * cs) : chunkCovered text cs ov := by
  obtain ⟨res, h⟩ := chunkLoop_total text.data cs ov hcs hov h7
    (text.data.length + 1) 0 [] [] le_rfl (by push_cast; omega) (by omega)
  refine ⟨_, res, h, ?_⟩
  intro p hp hplen
  exact chunkLoop_covers text.data cs ov hov _ _ _ _ _ h p hp hplen

theorem c8_amended_coverage_witness :
    (0:Int) < 8 ∧ (0:Int) ≤ 2 ∧ 10 * (2:Int) ≤ 7 * 8 ∧
      chunkCovered "Hello. World. Indeed." 8 2 :=
  ⟨by norm_num, by norm_num, by norm_num,
    c8_amended_coverage "Hello. World. Indeed." 8 2 (by norm_num) (by norm_num)
      (by norm_num)⟩

/-!
Lemmas about the stable insertion sort.
-/

theorem insertD_perm {α : Type} (le : α → α → Bool) (x : α) (l : List α) :
    (insertD le x l).Perm (x :: l) := by
  induction l with
  | nil => exact List.Perm.refl _
  | cons y ys ih =>
    rw [insertD]
    cases h : le x y
    · simp only [Bool.false_eq_true, if_false]
      exact (ih.cons y).trans (List.Perm.swap x y ys)
    · simp only [if_true]
      exact List.Perm.refl _

theorem isortD_perm {α : Type} (le : α → α → Bool) (l : List α) :
    (isortD le l).Perm l := by
  induction l with
  | nil => exact List.Perm.refl _
  | cons x xs ih =>
    exact (insertD_perm le x (isortD le xs)).trans (ih.cons x)

theorem mem_isortD {α : Type} (le : α → α → Bool) (l : List α) (x : α) :
    x ∈ isortD le l ↔ x ∈ l :=
  (isortD_perm le l).mem_iff

theorem insertD_pairwise {α : Type} (le : α → α → Bool)
    (htot : ∀ a b, le a b = false → le b a = true)
    (htrans : ∀ a b c, le a b = true → le b c = true → le a c = true)
    (x : α) (l : List α) (h : l.Pairwise (fun a b => le a b = true)) :
    (insertD le x l).Pairwise (fun a b => le a b = true) := by
  induction l with
  | nil => simp [insertD]
  | cons y ys ih =>
    rcases List.pairwise_cons.mp h with ⟨hy, hys⟩
    rw [insertD]
    cases hxy : le x y
    · simp only [Bool.false_eq_true, if_false]
      refine List.pairwise_cons.mpr ⟨?_, ih hys⟩
      intro z hz
      rcases List.mem_cons.mp ((insertD_perm le x ys).mem_iff.mp hz) with hz' | hz'
      · rw [hz']
        exact htot x y hxy
      · exact hy z hz'
    · simp only [if_true]
      refine List.pairwise_cons.mpr ⟨?_, h⟩
      intro z hz
      rcases List.mem_cons.mp hz with hz' | hz'
      · rw [hz']
        exact hxy
      · exact htrans x y z hxy (hy z hz')

theorem isortD_pairwise {α : Type} (le : α → α → Bool)
    (htot : ∀ a b, le a b = false → le b a = true)
    (htrans : ∀ a b c, le a b = true → le b c = true → le a c = true)
    (l : List α) :
    (isortD le l).Pairwise (fun a b => le a b = true) := by
  induction l with
  | nil => simp [isortD]
  | cons x xs ih => exact insertD_pairwise le htot htrans x (isortD le xs) ih

theorem insertD_congr {α : Type} (le le2 : α → α → Bool) (x : α) (l : List α)
    (h : ∀ y ∈ l, le x y = le2 x y) : insertD le x l = insertD le2 x l := by
  induction l with
  | nil => rfl
  | cons y ys ih =>
    simp only [insertD, h y (List.mem_cons_self y ys)]
    cases hc : le2 x y
    · simp only [Bool.false_eq_true, if_false]
      rw [ih (fun z hz => h z (List.mem_cons_of_mem _ hz))]
    · simp only [if_true]

theorem insertD_map {α β : Type} (leA : α → α → Bool) (le : β → β → Bool)
    (g : α → β) (hc : ∀ a b, leA a b = le (g a) (g b)) (x : α) (l : List α) :
    (insertD leA x l).map g = insertD le (g x) (l.map g) := by
  induction l with
  | nil => rfl
  | cons y ys ih =>
    simp only [insertD, hc x y, List.map_cons]
    cases hcond : le (g x) (g y)
    · simp only [Bool.false_eq_true, if_false, List.map_cons, ih]
    · simp only [if_true, List.map_cons]

theorem isortD_map {α β : Type} (leA : α → α → Bool) (le : β → β → Bool)
    (g : α → β) (hc : ∀ a b, leA a b = le (g a) (g b)) (l : List α) :
    (isortD leA l).map g = isortD le (l.map g) := by
  induction l with
  | nil => rfl
  | cons x xs ih =>
    show (insertD leA x (isortD leA xs)).map g = insertD le (g x) (isortD le (xs.map g))
    rw [insertD_map leA le g hc, ih]

theorem fst_ge_of_mem_enumFrom {α : Type} :
    ∀ (l : List α) (n : Nat) (p : Nat × α), p ∈ l.enumFrom n → n ≤ p.1 := by
  intro l
  induction l with
  | nil => intro n p hp; simp [List.enumFrom] at hp
  | cons x xs ih =>
    intro n p hp
    rcases List.mem_cons.mp hp with h | h
    · subst h; exact le_rfl
    · exact Nat.le_of_succ_le (ih (n+1) p h)

theorem pairwise_fst_lt_enumFrom {α : Type} :
    ∀ (l : List α) (n : Nat), (l.enumFrom n).Pairwise (fun a b => a.1 < b.1) := by
  intro l
  induction l with
  | nil => intro n; simp [List.enumFrom]
  | cons x xs ih =>
    intro n
    refine List.pairwise_cons.mpr ⟨?_, ih (n+1)⟩
    intro p hp
    exact Nat.lt_of_succ_le (fst_ge_of_mem_enumFrom xs (n+1) p hp)

theorem pairwise_fst_lt_enum {α : Type} (l : List α) :
    l.enum.Pairwise (fun a b => a.1 < b.1) :=
  pairwise_fst_lt_enumFrom l 0

/-!
The search's ordering facts and the equality with the spec's stable
ranking.
-/

theorem chunkGeB_total (a b : Chunk) (h : chunkGeB a b = false) :
    chunkGeB b a = true := by
  simp only [chunkGeB, decide_eq_false_iff_not, not_le] at h
  simp only [chunkGeB, decide_eq_true_eq]
  exact h.le

theorem chunkGeB_trans (a b c : Chunk) (h1 : chunkGeB a b = true)
    (h2 : chunkGeB b c = true) : chunkGeB a c = true := by
  simp only [chunkGeB, decide_eq_true_eq] at h1 h2 ⊢
  exact h2.trans h1

theorem isortD_lex_eq :
    ∀ (l : List (Nat × Chunk)), l.Pairwise (fun a b => a.1 < b.1) →
      isortD (fun a b => chunkGeB a.2 b.2) l = isortD lexLeB l := by
  intro l
  induction l with
  | nil => intro _; rfl
  | cons x xs ih =>
    intro hinc
    rcases List.pairwise_cons.mp hinc with ⟨hx, hxs⟩
    show insertD _ x (isortD (fun a b => chunkGeB a.2 b.2) xs) =
      insertD lexLeB x (isortD lexLeB xs)
    rw [ih hxs]
    apply insertD_congr
    intro y hy
    have hy' : y ∈ xs := (isortD_perm lexLeB xs).mem_iff.mp hy
    have hlt : x.1 < y.1 := hx y hy'
    simp only [chunkGeB, lexLeB, decide_eq_decide]
    constructor
    · intro hle
      rcases lt_or_eq_of_le hle with hlt2 | heq
      · exact Or.inl hlt2
      · exact Or.inr ⟨heq.symm, hlt.le⟩
    · rintro (hlt2 | ⟨heq, _⟩)
      · exact hlt2.le
      · exact heq.ge

theorem search_eq_spec (qe : List ℚ) (cache : CacheMap) (st : Settings) :
    searchSimilarChunks (some qe) cache st = searchSpecStable qe cache st := by
  have h1 : isortD (fun a b : Nat × Chunk => chunkGeB a.2 b.2)
      (candidates qe cache st).enum = isortD lexLeB (candidates qe cache st).enum :=
    isortD_lex_eq _ (pairwise_fst_lt_enum _)
  have h2 : (isortD (fun a b : Nat × Chunk => chunkGeB a.2 b.2)
        (candidates qe cache st).enum).map Prod.snd =
      isortD chunkGeB (((candidates qe cache st).enum).map Prod.snd) :=
    isortD_map _ chunkGeB Prod.snd (fun _ _ => rfl) _
  have h3 : (((candidates qe cache st).enum).map Prod.snd) = candidates qe cache st :=
    List.enum_map_snd _
  simp only [searchSimilarChunks, searchSpecStable]
  rw [← h1, h2, h3]

theorem candidateOf_some (qe : List ℚ) (t : ℚ) (a c : Chunk)
    (h : candidateOf qe t a = some c) : simGe c.similarity t = true := by
  unfold candidateOf at h
  split at h
  · cases h
  · split at h
    · cases h
      assumption
    · cases h

theorem mem_candidates_simGe (qe : List ℚ) (cache : CacheMap) (st : Settings)
    (c : Chunk) (hc : c ∈ candidates qe cache st) :
    simGe c.similarity st.similarityThreshold = true := by
  rcases List.mem_filterMap.mp hc with ⟨a, _, ha⟩
  exact candidateOf_some qe st.similarityThreshold a c ha

/-- Claim C6 (confirmed): for every query vector, cache, threshold and
maxResults, the search returns at most `maxResults` chunks, every
returned chunk's similarity clears the threshold, the result is ordered
by similarity descending, and it equals the spec's stable ranking
(similarity descending, ties broken by original iteration order) — in
particular, as a pure function of its inputs, repeated calls on
identical inputs return the identical ordered result. -/
theorem c6_search_ranked_stable (qe : List ℚ) (cache : CacheMap) (st : Settings) :
    (searchSimilarChunks (some qe) cache st).length ≤ st.maxResults ∧
    (∀ c ∈ searchSimilarChunks (some qe) cache st,
      simGe c.similarity st.similarityThreshold = true) ∧
    (searchSimilarChunks (some qe) cache st).Pairwise
      (fun a b => simVal b ≤ simVal a) ∧
    searchSimilarChunks (some qe) cache st = searchSpecStable qe cache st := by
  refine ⟨?_, ?_, ?_, search_eq_spec qe cache st⟩
  · show ((isortD chunkGeB (candidates qe cache st)).take st.maxResults).length ≤ _
    rw [List.length_take]
    exact min_le_left _ _
  · intro c hc
    have hc2 : c ∈ isortD chunkGeB (candidates qe cache st) :=
      List.mem_of_mem_take hc
    exact mem_candidates_simGe qe cache st c
      ((mem_isortD chunkGeB _ c).mp hc2)
  · have hsorted : (isortD chunkGeB (candidates qe cache st)).Pairwise
        (fun a b => chunkGeB a b = true) :=
      isortD_pairwise chunkGeB chunkGeB_total chunkGeB_trans _
    have htake : ((isortD chunkGeB (candidates qe cache st)).take
        st.maxResults).Pairwise (fun a b => chunkGeB a b = true) :=
      hsorted.sublist (List.take_sublist _ _)
    exact htake.imp (fun h => by simpa [chunkGeB] using h)

/-- Claim C7, counterexample: with the similarity threshold set to `0`
(at which the claim says a zero-magnitude chunk is included), a cached
chunk with embedding `[1]` queried with the zero-magnitude vector `[0]`
is *not* returned: the similarity computed is the NaN of `0 / 0`, not
`0`, and `NaN >= 0` is false. -/
theorem c7_counterexample :
    zeroThresholdSettings.similarityThreshold = 0 ∧ sumSq [(0 : ℚ)] = 0 ∧
      searchSimilarChunks (some [(0 : ℚ)]) cacheC7 zeroThresholdSettings = [] := by
  refine ⟨rfl, by decide, ?_⟩
  rfl

/-- Claim C7, amended: a zero-magnitude vector on either side (empty
vectors included) makes the similarity used by the search an undefined
(NaN) value, which fails the `>= threshold` comparison for *every*
threshold — including `0` — so such a chunk is always excluded, never
included. -/
theorem c7_amended_zero_magnitude (a b : List ℚ)
    (h : sumSq a = 0 ∨ sumSq b = 0) :
    cosineSimilarity a b = none ∧
      ∀ t : ℚ, simGe (cosineSimilarity a b) t = false := by
  have hnone : cosineSimilarity a b = none := by
    unfold cosineSimilarity
    split
    · rfl
    · rw [if_pos h]
  exact ⟨hnone, fun t => by rw [hnone]; rfl⟩

theorem c7_amended_zero_magnitude_witness :
    (sumSq [(0 : ℚ)] = 0 ∨ sumSq [(1 : ℚ), 2] = 0) ∧
      cosineSimilarity [(0 : ℚ)] [(1 : ℚ), 2] = none ∧
      ∀ t : ℚ, simGe (cosineSimilarity [(0 : ℚ)] [(1 : ℚ), 2]) t = false :=
  ⟨Or.inl (by decide),
    (c7_amended_zero_magnitude [(0 : ℚ)] [(1 : ℚ), 2] (Or.inl (by decide))).1,
    (c7_amended_zero_magnitude [(0 : ℚ)] [(1 : ℚ), 2] (Or.inl (by decide))).2⟩

/-!
Cache update (claim C9) and the data store (claims C4, C5).
-/

theorem mapGet_mapSet_self (m : CacheMap) (k : String) (v : EmbeddingData) :
    mapGet (mapSet m k v) k = some v := by
  induction m with
  | nil => simp [mapSet, mapGet, List.find?]
  | cons kv rest ih =>
    rw [mapSet]
    cases h : kv.1 == k
    · simp only [Bool.false_eq_true, if_false]
      show mapGet (kv :: mapSet rest k v) k = some v
      simp only [mapGet, List.find?, h]
      exact ih
    · simp only [if_true]
      simp [mapGet, List.find?]

theorem mapGet_mapSet_other (m : CacheMap) (k p : String) (v : EmbeddingData)
    (hne : p ≠ k) : mapGet (mapSet m k v) p = mapGet m p := by
  have hpk : (k == p) = false := by
    simp only [beq_eq_false_iff_ne, ne_eq]
    exact fun hc => hne hc.symm
  induction m with
  | nil => simp [mapSet, mapGet, List.find?, hpk]
  | cons kv rest ih =>
    rw [mapSet]
    cases h : kv.1 == k
    · simp only [Bool.false_eq_true, if_false]
      show mapGet (kv :: mapSet rest k v) p = mapGet (kv :: rest) p
      simp only [mapGet, List.find?]
      cases hkvp : kv.1 == p
      · exact ih
      · rfl
    · simp only [if_true]
      have hkvk : kv.1 = k := by simpa [beq_iff_eq] using h
      show mapGet ((k, v) :: rest) p = mapGet (kv :: rest) p
      simp only [mapGet, List.find?, hpk, hkvk]

/-- Claim C9 (confirmed): re-ingesting a source whose processing
produced a new record replaces that source's record wholesale — the
cache afterwards maps the source id to exactly the new record (with
exactly its chunks) — and every other source id's record is
untouched. -/
theorem c9_reingest_replaces_wholesale (cache : CacheMap) (path : String)
    (d : EmbeddingData) :
    mapGet (pluginProcessFile cache path (some d)) path = some d ∧
    ∀ p : String, p ≠ path →
      mapGet (pluginProcessFile cache path (some d)) p = mapGet cache p :=
  ⟨mapGet_mapSet_self cache path d,
    fun p hp => mapGet_mapSet_other cache path p d hp⟩

theorem c9_reingest_replaces_wholesale_witness :
    ("b.md" : String) ≠ "a.md" ∧
    dataTen.chunks.length = 10 ∧ dataThree.chunks.length = 3 ∧
    mapGet (pluginProcessFile cacheC9 "a.md" (some dataThree)) "a.md" =
      some dataThree ∧
    mapGet (pluginProcessFile cacheC9 "a.md" (some dataThree)) "b.md" =
      mapGet cacheC9 "b.md" :=
  ⟨by decide, by decide, by decide,
    (c9_reingest_replaces_wholesale cacheC9 "a.md" dataThree).1,
    (c9_reingest_replaces_wholesale cacheC9 "a.md" dataThree).2 "b.md" (by decide)⟩

/-- Claim C5 (confirmed): settings, embedding cache and chat history
share the one plugin data store, and `saveSettings` /
`saveEmbeddingsToCache` each overwrite the whole store with only their
own object: after `saveSettings` the store holds only the settings —
no `embeddingCache` field survives, and `loadEmbeddingsFromCache` into
a fresh (empty) in-memory cache yields the empty cache — and
symmetrically `saveEmbeddingsToCache` persists only the
`embeddingCache` field, discarding the persisted settings. -/
theorem c5_saves_clobber_each_other (s : Settings) (m : CacheMap)
    (d d2 : StoreData) :
    (saveSettingsStore s d).settingsData = some s ∧
    (saveSettingsStore s d).embeddingCacheData = none ∧
    (saveSettingsStore s d).chatHistoryData = none ∧
    loadEmbeddingsFromCache (saveSettingsStore s d) [] = [] ∧
    (saveEmbeddingsToCacheStore m d2).embeddingCacheData = some m ∧
    (saveEmbeddingsToCacheStore m d2).settingsData = none ∧
    (saveEmbeddingsToCacheStore m d2).chatHistoryData = none :=
  ⟨rfl, rfl, rfl, rfl, rfl, rfl, rfl⟩

/-- Claim C4, counterexample: the slider handlers store
`chunkSize = 200`, `chunkOverlap = 500` without complaint
(`chunkOverlap ≥ chunkSize`), no `ConfigurationError` exists anywhere
in the code, and ingestion then invokes the chunker with exactly that
configuration and succeeds in producing a record — the configuration is
never rejected at any boundary. -/
theorem c4_counterexample :
    c4Settings.chunkSize ≤ c4Settings.chunkOverlap ∧
    (processFileForEmbeddings "n.md" "n.md" c4Content c4Settings
      (fun _ => some [1]) 0).2 = [(200, 500)] ∧
    (processFileForEmbeddings "n.md" "n.md" c4Content c4Settings
      (fun _ => some [1]) 0).1.isSome = true := by
  refine ⟨by decide, by decide, by decide⟩

/-- Claim C4, amended: no validation of the chunk configuration exists.
Every slider change is stored verbatim and persisted — including any
combination with `chunkOverlap ≥ chunkSize` — and ingestion always
invokes the chunker exactly once with the stored `(chunkSize,
chunkOverlap)` pair, surfacing no configuration error. -/
theorem c4_amended_no_validation (s : Settings) (d : StoreData) (v : Int)
    (path fname content : String) (embed : String → Option (List ℚ))
    (now : Int) :
    ((chunkOverlapOnChange s d v).1).chunkOverlap = v ∧
    ((chunkOverlapOnChange s d v).1).chunkSize = s.chunkSize ∧
    ((chunkOverlapOnChange s d v).2).settingsData =
      some (chunkOverlapOnChange s d v).1 ∧
    (processFileForEmbeddings path fname content s embed now).2 =
      [(s.chunkSize, s.chunkOverlap)] := by
  refine ⟨rfl, rfl, rfl, ?_⟩
  unfold processFileForEmbeddings
  split
  · rfl
  · rfl

/-!
Orchestrator claims (C1, C10).
-/

/-- Claim C10 (confirmed): when the search yields no chunk — empty
cache or nothing clearing the threshold — `queryWithRAG` returns the
defined "no relevant content" text as a *normal* (`ok`) result and the
generation capability is invoked zero times. -/
theorem c10_empty_result_short_circuit (query : String)
    (qe : Option (List ℚ)) (cache : CacheMap) (st : Settings)
    (gen : String → Nat → String → Except GenError String)
    (h : searchSimilarChunks qe cache st = []) :
    queryWithRAG true query qe cache st gen =
      (.ok "No relevant content found in your vault for this query.", 0) := by
  simp [queryWithRAG, h]

theorem c10_empty_result_short_circuit_witness :
    searchSimilarChunks (some [(1 : ℚ)]) [] defaultSettings = [] ∧
    queryWithRAG true "What is in my vault?" (some [(1 : ℚ)]) []
        defaultSettings (fun _ _ _ => .ok "ignored") =
      (.ok "No relevant content found in your vault for this query.", 0) :=
  ⟨rfl, c10_empty_result_short_circuit "What is in my vault?" (some [(1 : ℚ)])
    [] defaultSettings (fun _ _ _ => .ok "ignored") rfl⟩

/-- Claim C1, counterexample: against `genFlaky` — transient failures
on attempts 1 and 2, success on attempt 3 — the claimed retry policy
(`retryGenerate`, built from the spec's words) returns the attempt-3
text after 3 attempts and exactly one model switch, but the code
invokes the generation capability exactly once and surfaces the
transient error: there is no retry, no backoff and no fallback switch
in `queryWithRAG`. -/
theorem c1_counterexample :
    (queryWithRAG true "q" (some [(1 : ℚ)]) cacheC1 defaultSettings genFlaky).2
        = 1 ∧
    (queryWithRAG true "q" (some [(1 : ℚ)]) cacheC1 defaultSettings genFlaky).1
        = .error .unavailable ∧
    genFlaky "gemini-1.5-flash" 2 "any prompt" = .ok "answer from attempt 3" ∧
    retryGenerate genFlaky defaultSettings.generativeModel ["gemini-1.5-pro"]
      "any prompt" = (.ok "answer from attempt 3", 3, 1) :=
  ⟨rfl, rfl, rfl, rfl⟩

/-- Claim C1, amended: for every query whose search result is
non-empty, `queryWithRAG` invokes the generation capability exactly
once — at attempt index 0, with the configured generative model and the
assembled prompt — and returns that single call's outcome unchanged: a
success's text is the answer and any failure propagates; no retry,
backoff or model fallback exists. -/
theorem c1_amended_single_generation (query : String) (qe : Option (List ℚ))
    (cache : CacheMap) (st : Settings)
    (gen : String → Nat → String → Except GenError String)
    (h : searchSimilarChunks qe cache st ≠ []) :
    queryWithRAG true query qe cache st gen =
      (gen st.generativeModel 0
        (buildPrompt query (searchSimilarChunks qe cache st)), 1) := by
  cases hl : searchSimilarChunks qe cache st with
  | nil => exact absurd hl h
  | cons c cs => simp [queryWithRAG, hl]

theorem c1_amended_single_generation_witness :
    searchSimilarChunks (some [(1 : ℚ)]) cacheC1 defaultSettings ≠ [] ∧
    queryWithRAG true "q" (some [(1 : ℚ)]) cacheC1 defaultSettings genFlaky =
      (genFlaky defaultSettings.generativeModel 0
        (buildPrompt "q"
          (searchSimilarChunks (some [(1 : ℚ)]) cacheC1 defaultSettings)), 1) :=
  ⟨by decide, c1_amended_single_generation "q" (some [(1 : ℚ)]) cacheC1
    defaultSettings genFlaky (by decide)⟩
